import Mathlib

/-!
Verification of the hard-link based advisory file lock in `simple_lock.py`.

The filesystem is modelled as an association list from paths to file
contents.  The operations the lock uses — create-file-with-content
(`open(p, 'w')` + `write`), `os.link`, `os.unlink`, read-file-content —
are embedded as pure functions returning `Except Errno`.  A hard link in
the real filesystem aliases the source's inode; since the lock protocol
never rewrites a marker file while it is linked, creating the link is
modelled as copying the source's current content, which is observationally
equivalent for every operation the program performs.

Time (`time.time()`) is an abstract `Nat` clock sampled once per loop
iteration; `random.random()` is an abstract function `Nat → ℚ` with the
contract `0 ≤ rand i < 1`.  Interference from other processes between
polling attempts is a function `Nat → FS → FS` applied before each
attempt.
-/

namespace SimpleLockSpec

abbrev Path := String

/-- The errno values the code distinguishes: `errno.EEXIST`, `errno.ENOENT`,
and any other OS error code. -/
inductive Errno where
  | eexist
  | enoent
  | other (code : Nat)
deriving DecidableEq, Repr

/-- Exceptions the module can raise: `LockError(msg)` (a `RuntimeError`
subclass) or a propagated `OSError` with an errno. -/
inductive PyError where
  | lockError (msg : String)
  | osError (e : Errno)
deriving DecidableEq, Repr

/-- Filesystem state: a finite map from paths to file contents,
represented as an association list (first binding wins). -/
structure FS where
  files : List (Path × String)
deriving DecidableEq, Repr

namespace FS

/-- Content of the file at `p`, if it exists. -/
def lookup (fs : FS) (p : Path) : Option String :=
  (fs.files.find? (fun e => e.1 == p)).map (fun e => e.2)

/-- Remove every binding for `p` (internal helper). -/
def removePath (fs : FS) (p : Path) : FS :=
  ⟨fs.files.filter (fun e => e.1 != p)⟩

/-- `open(p, 'w')` + `write c`: create or truncate the file at `p` with
content `c`. -/
def write (fs : FS) (p : Path) (c : String) : FS :=
  ⟨(p, c) :: (fs.removePath p).files⟩

/-- `os.unlink p`: remove the file at `p`; fails with `ENOENT` when it is
absent. -/
def unlink (fs : FS) (p : Path) : Except Errno FS :=
  match fs.lookup p with
  | some _ => .ok (fs.removePath p)
  | none => .error .enoent

/-- `os.link src dst`: atomically create `dst` sharing `src`'s data.
Fails with `EEXIST` when `dst` already exists, `ENOENT` when `src` is
absent. -/
def link (fs : FS) (src dst : Path) : Except Errno FS :=
  match fs.lookup dst with
  | some _ => .error .eexist
  | none =>
    match fs.lookup src with
    | some c => .ok (fs.write dst c)
    | none => .error .enoent

/-- `open(p).read()`: content of `p`, failing with `ENOENT` when absent. -/
def readFile (fs : FS) (p : Path) : Except Errno String :=
  match fs.lookup p with
  | some c => .ok c
  | none => .error .enoent

theorem lookup_write_self (fs : FS) (p : Path) (c : String) :
    (fs.write p c).lookup p = some c := by
  simp [write, lookup, List.find?]

theorem find?_filter_ne (l : List (Path × String)) (p q : Path) (hpq : q ≠ p) :
    (l.filter (fun e => e.1 != p)).find? (fun e => e.1 == q) =
      l.find? (fun e => e.1 == q) := by
  induction l with
  | nil => rfl
  | cons a l ih =>
    rw [List.filter_cons]
    by_cases ha : a.1 = p
    · have h1 : (a.1 != p) = false := by simp [ha]
      have h2 : (a.1 == q) = false := by
        simp only [beq_eq_false_iff_ne, ne_eq, ha]
        exact fun h => hpq h.symm
      simp only [h1, Bool.false_eq_true, if_false, List.find?_cons, h2]
      exact ih
    · have h1 : (a.1 != p) = true := by simp [ha]
      simp only [h1, if_true, List.find?_cons]
      by_cases haq : a.1 = q
      · simp [haq]
      · have h2 : (a.1 == q) = false := by simp [haq]
        simp only [h2]
        exact ih

theorem lookup_write_ne (fs : FS) (p q : Path) (c : String) (h : q ≠ p) :
    (fs.write p c).lookup q = fs.lookup q := by
  have hq : ((((p, c) : Path × String).1 == q) : Bool) = false := by
    simp only [beq_eq_false_iff_ne, ne_eq]
    exact fun hh => h hh.symm
  simp only [write, lookup, removePath, List.find?_cons, hq]
  rw [find?_filter_ne fs.files p q h]

theorem lookup_removePath_self (fs : FS) (p : Path) :
    (fs.removePath p).lookup p = none := by
  simp only [removePath, lookup]
  rw [List.find?_eq_none.mpr]
  · rfl
  · intro e he
    have := List.of_mem_filter he
    simp only [bne_iff_ne, ne_eq, decide_not] at this
    simpa using this

theorem lookup_removePath_ne (fs : FS) (p q : Path) (h : q ≠ p) :
    (fs.removePath p).lookup q = fs.lookup q := by
  simp only [removePath, lookup]
  rw [find?_filter_ne fs.files p q h]

theorem unlink_lookup (fs fs' : FS) (p : Path) (h : fs.unlink p = .ok fs') :
    fs' = fs.removePath p := by
  unfold unlink at h
  cases hl : fs.lookup p with
  | none => rw [hl] at h; cases h
  | some c => rw [hl] at h; cases h; rfl

end FS

/-- The `SimpleLock` instance state set up by `__init__`
(`logger` is behaviour-free and omitted). -/
structure SimpleLock where
  lockfile_path : Path
  tmpfile_path : Path
  timeout : Nat
  no_sleep : Bool
deriving DecidableEq, Repr

/-- `SimpleLock.__init__(self, path, *, logger=None, no_sleep=False)`.
Note the source (line 69) assigns `self._no_sleep = False` — the literal
`False`, not the `no_sleep` parameter — so the field is `false` whatever
the caller passed. -/
def SimpleLock.init (path : Path) (pid : Nat) (no_sleep : Bool) : SimpleLock :=
  { lockfile_path := path
    tmpfile_path := path ++ "." ++ toString pid
    timeout := 60
    no_sleep := false }

/-- Result of a terminating `lock()` call: the raised-or-returned outcome,
the chronological list of `time.sleep` durations performed between
attempts, and the index of the final link attempt. -/
structure LockRun where
  result : Except PyError FS
  sleeps : List ℚ
  lastAttempt : Nat
deriving Repr

/-- The `while True` loop of `SimpleLock.lock` (source lines 83–97).
`deadline` is the local `timeout` variable; `timeAt i` is the value
`time.time()` returns at the timeout check of iteration `i`; `rand i` is
the value `random.random()` returns there; `interf i` is whatever other
processes do to the filesystem before attempt `i`.  Returns `none` when
`fuel` iterations did not finish the loop (the loop is still spinning). -/
def lockAux (lk : SimpleLock) (deadline : Nat) (interf : Nat → FS → FS)
    (timeAt : Nat → Nat) (rand : Nat → ℚ) :
    Nat → Nat → FS → List ℚ → Option LockRun
  | 0, _, _, _ => none
  | fuel + 1, i, fs, sl =>
    let fsi := interf i fs
    match fsi.link lk.tmpfile_path lk.lockfile_path with
    | .ok fs' => some ⟨.ok fs', sl, i⟩
    | .error e =>
      if e = .eexist then
        if timeAt i > deadline then
          some ⟨.error (.lockError "Timeout"), sl, i⟩
        else
          lockAux lk deadline interf timeAt rand fuel (i + 1) fsi
            (if lk.no_sleep then sl else sl ++ [rand i + 1/100])
      else
        some ⟨.error (.osError e), sl, i⟩

/-- `SimpleLock.lock` (source lines 77–97): write `tmpfile_path`'s own
path into the file at `tmpfile_path`, set the deadline to
`time.time() + self._timeout` (`t0` is that `time.time()` sample), then
poll `os.link`. -/
def SimpleLock.lock (lk : SimpleLock) (fs0 : FS) (interf : Nat → FS → FS)
    (t0 : Nat) (timeAt : Nat → Nat) (rand : Nat → ℚ) (fuel : Nat) :
    Option LockRun :=
  let fs1 := fs0.write lk.tmpfile_path lk.tmpfile_path
  lockAux lk (t0 + lk.timeout) interf timeAt rand fuel 0 fs1 []

/-- The `except OSError` clause of `SimpleLock._read_lockfile`
(source lines 124–127): `ENOENT` is mapped to `None`, any other error is
re-raised. -/
def readLockfileHandler (raw : Except Errno String) :
    Except Errno (Option String) :=
  match raw with
  | .ok c => .ok (some c)
  | .error e => if e = .enoent then .ok none else .error e

/-- `SimpleLock._read_lockfile` (source lines 119–127). -/
def SimpleLock.read_lockfile (lk : SimpleLock) (fs : FS) :
    Except Errno (Option String) :=
  readLockfileHandler (fs.readFile lk.lockfile_path)

/-- `SimpleLock.is_locked` (source lines 116–117): compare the lockfile's
content (or `None`) with `self._tmpfile_path`. -/
def SimpleLock.is_locked (lk : SimpleLock) (fs : FS) : Except Errno Bool :=
  (lk.read_lockfile fs).map (fun c => c == some lk.tmpfile_path)

/-- The `except OSError` clause around each `os.unlink` in
`SimpleLock.unlock` (source lines 105–114): with `force`, `ENOENT` is
swallowed (the filesystem keeps the pre-call state `fs`); everything else
is re-raised. -/
def unlinkHandler (force : Bool) (raw : Except Errno FS) (fs : FS) :
    Except Errno FS :=
  match raw with
  | .ok fs' => .ok fs'
  | .error e => if force && e == .enoent then .ok fs else .error e

/-- `SimpleLock.unlock` (source lines 99–114).  Returns the outcome and
the chronological list of paths on which `os.unlink` was attempted. -/
def SimpleLock.unlock (lk : SimpleLock) (force : Bool) (fs : FS) :
    Except PyError FS × List Path :=
  match lk.is_locked fs with
  | .error e => (.error (.osError e), [])
  | .ok false => (.error (.lockError "Not locked by myself"), [])
  | .ok true =>
    match unlinkHandler force (fs.unlink lk.lockfile_path) fs with
    | .error e => (.error (.osError e), [lk.lockfile_path])
    | .ok fs1 =>
      match unlinkHandler force (fs1.unlink lk.tmpfile_path) fs1 with
      | .error e => (.error (.osError e), [lk.lockfile_path, lk.tmpfile_path])
      | .ok fs2 => (.ok fs2, [lk.lockfile_path, lk.tmpfile_path])

/-- `SimpleLock.__enter__` (source lines 71–72): runs `self.lock()`; the
method body has no `return` statement, so Python returns `None`.  The
`Option SimpleLock` component is the value a `with ... as x` binding
receives: `none` encodes Python's `None`, `some lk` would encode the
instance itself. -/
def SimpleLock.enter (lk : SimpleLock) (fs0 : FS) (interf : Nat → FS → FS)
    (t0 : Nat) (timeAt : Nat → Nat) (rand : Nat → ℚ) (fuel : Nat) :
    Option (Except PyError (FS × Option SimpleLock)) :=
  (lk.lock fs0 interf t0 timeAt rand fuel).map (fun r =>
    match r.result with
    | .ok fs => .ok (fs, (none : Option SimpleLock))
    | .error e => .error e)

/-- `SimpleLock.__exit__` (source lines 74–75): calls `self.unlock()` with
the default `force=False` and falls off the end, returning `None` (falsy),
so a body exception keeps propagating after the unlock. -/
def SimpleLock.exitCall (lk : SimpleLock) (fs : FS) :
    Except PyError FS × List Path :=
  lk.unlock false fs

/-- Observable method calls of a `with` block, in order. -/
inductive CallEv where
  | lockCall
  | unlockCall (force : Bool)
deriving DecidableEq, Repr

/-- Executable model of `with SimpleLock(...): body` following Python's
with-statement semantics (PEP 343): `__enter__` on entry; `__exit__` on
every exit path of the body, normal or exceptional; since `__exit__`
returns a falsy value, a body exception resumes propagating after the
unlock, and an exception raised by `__exit__` itself replaces it.  `body`
maps the filesystem at entry to the filesystem at exit plus an optional
exception.  The second component lists the lock method calls made. -/
def withSimpleLock (lk : SimpleLock) (fs0 : FS) (interf : Nat → FS → FS)
    (t0 : Nat) (timeAt : Nat → Nat) (rand : Nat → ℚ) (fuel : Nat)
    (body : FS → FS × Option PyError) :
    Option (Except PyError FS × List CallEv) :=
  match lk.lock fs0 interf t0 timeAt rand fuel with
  | none => none
  | some r =>
    match r.result with
    | .error e => some (.error e, [.lockCall])
    | .ok fs1 =>
      let bodyOut := body fs1
      match (lk.exitCall bodyOut.1).1 with
      | .error e2 => some (.error e2, [.lockCall, .unlockCall false])
      | .ok fs3 =>
        match bodyOut.2 with
        | some e => some (.error e, [.lockCall, .unlockCall false])
        | none => some (.ok fs3, [.lockCall, .unlockCall false])

/-- Inversion of a successful `os.link`: the destination was absent, the
source existed with some content `c`, and the result writes `c` at the
destination. -/
theorem link_ok_inv (fs fs' : FS) (src dst : Path)
    (h : fs.link src dst = .ok fs') :
    fs.lookup dst = none ∧
      ∃ c, fs.lookup src = some c ∧ fs' = fs.write dst c := by
  unfold FS.link at h
  cases hd : fs.lookup dst with
  | some c => rw [hd] at h; cases h
  | none =>
    rw [hd] at h
    cases hs : fs.lookup src with
    | none => rw [hs] at h; cases h
    | some c =>
      rw [hs] at h
      cases h
      exact ⟨rfl, c, rfl, rfl⟩

/-- `is_locked` computed in closed form: it is the boolean comparison of
the lockfile's current content (when present) with the instance's marker
path. -/
theorem is_locked_eq (lk : SimpleLock) (fs : FS) :
    lk.is_locked fs =
      .ok (fs.lookup lk.lockfile_path == some lk.tmpfile_path) := by
  unfold SimpleLock.is_locked SimpleLock.read_lockfile readLockfileHandler
    FS.readFile
  cases h : fs.lookup lk.lockfile_path <;> simp [h, Except.map]

/-- C6: `is_locked` returns `ok true` iff `lock_path` exists with content
exactly the instance's `marker_path` string; it returns `ok false` when
`lock_path` is absent or its content differs; and the read handler maps
`ENOENT` to `None` while re-raising every other read error. -/
theorem is_locked_characterization (lk : SimpleLock) (fs : FS) (e : Errno) :
    (lk.is_locked fs = .ok true ↔
      fs.lookup lk.lockfile_path = some lk.tmpfile_path) ∧
    (fs.lookup lk.lockfile_path = none → lk.is_locked fs = .ok false) ∧
    (∀ c, fs.lookup lk.lockfile_path = some c → c ≠ lk.tmpfile_path →
      lk.is_locked fs = .ok false) ∧
    (readLockfileHandler (.error .enoent) = .ok none) ∧
    (e ≠ .enoent → readLockfileHandler (.error e) = .error e) := by
  refine ⟨?_, ?_, ?_, rfl, ?_⟩
  · rw [is_locked_eq]
    constructor
    · intro h
      have := congrArg (fun x : Except Errno Bool =>
        match x with | .ok b => b | .error _ => false) h
      simpa using this
    · intro h; simp [h]
  · intro h; rw [is_locked_eq, h]; rfl
  · intro c hc hne
    rw [is_locked_eq, hc]
    simp [hne]
  · intro he
    show (if e = .enoent then (.ok none : Except Errno (Option String))
      else .error e) = .error e
    rw [if_neg he]

/-- Closed-form instance of the C6 characterization at concrete inputs. -/
theorem is_locked_characterization_witness :
    (SimpleLock.init "L" 1 false).is_locked ⟨[("L", "L.1")]⟩ = .ok true ∧
    (SimpleLock.init "L" 1 false).is_locked ⟨[("L", "L.2")]⟩ = .ok false ∧
    readLockfileHandler (.error (.other 13)) = .error (.other 13) := by
  refine ⟨?_, ?_, ?_⟩
  · exact (is_locked_characterization (SimpleLock.init "L" 1 false)
      ⟨[("L", "L.1")]⟩ (.other 13)).1.mpr rfl
  · exact (is_locked_characterization (SimpleLock.init "L" 1 false)
      ⟨[("L", "L.2")]⟩ (.other 13)).2.2.1 "L.2" rfl (by decide)
  · exact (is_locked_characterization (SimpleLock.init "L" 1 false)
      ⟨[("L", "L.2")]⟩ (.other 13)).2.2.2.2 (by decide)

/-- C5: when the instance does not own the lock, `unlock` raises
`LockError('Not locked by myself')` — a message distinct from
`'Timeout'` — and attempts no `os.unlink` at all (for any `force`
value). -/
theorem unlock_not_owned (lk : SimpleLock) (force : Bool) (fs : FS)
    (h : lk.is_locked fs = .ok false) :
    lk.unlock force fs = (.error (.lockError "Not locked by myself"), []) ∧
    ("Not locked by myself" : String) ≠ "Timeout" := by
  constructor
  · unfold SimpleLock.unlock
    rw [h]
  · decide

/-- Closed-form instance of C5: a freshly constructed instance on an empty
filesystem owns nothing, so `unlock` fails without touching any file. -/
theorem unlock_not_owned_witness :
    (SimpleLock.init "L" 1 false).unlock false ⟨[]⟩ =
      (.error (.lockError "Not locked by myself"), []) ∧
    ("Not locked by myself" : String) ≠ "Timeout" :=
  unlock_not_owned (SimpleLock.init "L" 1 false) false ⟨[]⟩ rfl

/-- C10: `__enter__` executes `self.lock()` and returns Python `None`
(there is no `return` statement), so the value a `with ... as x` binding
receives is never the lock instance. -/
theorem enter_returns_none (lk : SimpleLock) (fs0 : FS)
    (interf : Nat → FS → FS) (t0 : Nat) (timeAt : Nat → Nat) (rand : Nat → ℚ)
    (fuel : Nat) (fs : FS) (v : Option SimpleLock)
    (h : lk.enter fs0 interf t0 timeAt rand fuel = some (.ok (fs, v))) :
    v = none := by
  unfold SimpleLock.enter at h
  cases hl : lk.lock fs0 interf t0 timeAt rand fuel with
  | none => rw [hl] at h; cases h
  | some r =>
    rw [hl] at h
    simp only [Option.map_some'] at h
    cases hr : r.result with
    | ok fs' =>
      rw [hr] at h
      cases h
      rfl
    | error e => rw [hr] at h; cases h

/-- Closed-form instance of C10: a successful scoped entry binds `none`. -/
theorem enter_returns_none_witness : (none : Option SimpleLock) = none :=
  enter_returns_none (SimpleLock.init "L" 1 false) ⟨[]⟩ (fun _ fs => fs) 0
    (fun _ => 0) (fun _ => 0) 1 ⟨[("L", "L.1"), ("L.1", "L.1")]⟩ none rfl

/-- C3 counter-evidence: forced release is not idempotent.  A full
acquire on an empty filesystem yields the two-file state; a first
`unlock(force=True)` succeeds and removes both files (`lock_path` first);
but the second `unlock(force=True)`, with both files gone, raises
`LockError('Not locked by myself')` because the `is_locked()` precheck
(source line 102) runs even under `force` — contradicting the in-code
comment that with `force=True` missing lock files are not an error. -/
theorem unlock_force_twice_raises :
    (SimpleLock.init "L" 1 false).lock ⟨[]⟩ (fun _ fs => fs) 0 (fun _ => 0)
        (fun _ => 0) 1 =
      some ⟨.ok ⟨[("L", "L.1"), ("L.1", "L.1")]⟩, [], 0⟩ ∧
    (SimpleLock.init "L" 1 false).unlock true ⟨[("L", "L.1"), ("L.1", "L.1")]⟩ =
      (.ok ⟨[]⟩, ["L", "L.1"]) ∧
    (SimpleLock.init "L" 1 false).unlock true ⟨[]⟩ =
      (.error (.lockError "Not locked by myself"), []) :=
  ⟨rfl, rfl, rfl⟩

/-- C2 counter-evidence: the `no_sleep=True` constructor argument is
discarded (source line 69 assigns the literal `False`), so an instance
built with jitter "disabled" still sleeps between retries: polling a held
lock for two attempts records the sleep `random.random() + 0.01` (here
`0 + 1/100`) instead of the zero delays the claim requires. -/
theorem no_sleep_flag_ignored :
    (SimpleLock.init "L" 1 true).no_sleep = false ∧
    (SimpleLock.init "L" 1 true).lock ⟨[("L", "L.2")]⟩ (fun _ fs => fs) 0
        (fun i => if i = 0 then 0 else 100) (fun _ => 0) 2 =
      some ⟨.error (.lockError "Timeout"), [0 + 1/100], 1⟩ ∧
    ([0 + 1/100] : List ℚ) ≠ [] :=
  ⟨rfl, rfl, by decide⟩

/-- C7: on a filesystem where `lock_path` is free and with no
interference, `lock()` succeeds on the first attempt (having written the
marker file with its own path as content), after which `is_locked` is
`ok true` for the acquiring instance and `ok false` for every instance
with the same `lock_path` but a different `marker_path`. -/
theorem lock_then_owned (lk : SimpleLock) (fs0 : FS) (t0 : Nat)
    (timeAt : Nat → Nat) (rand : Nat → ℚ) (fuel : Nat) (hfuel : 0 < fuel)
    (hfree : fs0.lookup lk.lockfile_path = none)
    (hne : lk.lockfile_path ≠ lk.tmpfile_path) :
    ∃ fs2,
      lk.lock fs0 (fun _ fs => fs) t0 timeAt rand fuel =
        some ⟨.ok fs2, [], 0⟩ ∧
      fs2.lookup lk.tmpfile_path = some lk.tmpfile_path ∧
      lk.is_locked fs2 = .ok true ∧
      ∀ lk' : SimpleLock, lk'.lockfile_path = lk.lockfile_path →
        lk'.tmpfile_path ≠ lk.tmpfile_path → lk'.is_locked fs2 = .ok false := by
  obtain ⟨f, rfl⟩ : ∃ f, fuel = f + 1 := ⟨fuel - 1, by omega⟩
  have h1 : (fs0.write lk.tmpfile_path lk.tmpfile_path).lookup
      lk.lockfile_path = none := by
    rw [FS.lookup_write_ne fs0 lk.tmpfile_path lk.lockfile_path
      lk.tmpfile_path hne]
    exact hfree
  have h2 : (fs0.write lk.tmpfile_path lk.tmpfile_path).lookup
      lk.tmpfile_path = some lk.tmpfile_path :=
    FS.lookup_write_self fs0 lk.tmpfile_path lk.tmpfile_path
  have hlink : (fs0.write lk.tmpfile_path lk.tmpfile_path).link
      lk.tmpfile_path lk.lockfile_path =
      .ok ((fs0.write lk.tmpfile_path lk.tmpfile_path).write
        lk.lockfile_path lk.tmpfile_path) := by
    unfold FS.link
    rw [h1, h2]
  refine ⟨(fs0.write lk.tmpfile_path lk.tmpfile_path).write lk.lockfile_path
    lk.tmpfile_path, ?_, ?_, ?_, ?_⟩
  · unfold SimpleLock.lock lockAux
    simp only [hlink]
  · rw [FS.lookup_write_ne (fs0.write lk.tmpfile_path lk.tmpfile_path)
      lk.lockfile_path lk.tmpfile_path lk.tmpfile_path (fun h => hne h.symm)]
    exact h2
  · rw [is_locked_eq, FS.lookup_write_self]
    simp
  · intro lk' hl hm
    rw [is_locked_eq, hl, FS.lookup_write_self]
    simp only [Except.ok.injEq]
    simpa using fun h => hm h.symm

/-- Closed-form instance of C7 with two instances on `"L"`. -/
theorem lock_then_owned_witness :
    ∃ fs2,
      (SimpleLock.init "L" 1 false).lock ⟨[]⟩ (fun _ fs => fs) 0 (fun _ => 0)
          (fun _ => 0) 1 =
        some ⟨.ok fs2, [], 0⟩ ∧
      fs2.lookup "L.1" = some "L.1" ∧
      (SimpleLock.init "L" 1 false).is_locked fs2 = .ok true ∧
      ∀ lk' : SimpleLock, lk'.lockfile_path = "L" →
        lk'.tmpfile_path ≠ "L.1" → lk'.is_locked fs2 = .ok false :=
  lock_then_owned (SimpleLock.init "L" 1 false) ⟨[]⟩ 0 (fun _ => 0)
    (fun _ => 0) 1 (by decide) rfl (by decide)

/-- C8: on a free `lock_path` with no interference, `lock()` then
`unlock()` removes both artifacts, and the `os.unlink` calls happen in the
order `lock_path` first, `marker_path` second. -/
theorem lock_unlock_round_trip (lk : SimpleLock) (fs0 : FS) (t0 : Nat)
    (timeAt : Nat → Nat) (rand : Nat → ℚ) (fuel : Nat) (hfuel : 0 < fuel)
    (hfree : fs0.lookup lk.lockfile_path = none)
    (hne : lk.lockfile_path ≠ lk.tmpfile_path) :
    ∃ fs2 fs3,
      lk.lock fs0 (fun _ fs => fs) t0 timeAt rand fuel =
        some ⟨.ok fs2, [], 0⟩ ∧
      lk.unlock false fs2 =
        (.ok fs3, [lk.lockfile_path, lk.tmpfile_path]) ∧
      fs3.lookup lk.lockfile_path = none ∧
      fs3.lookup lk.tmpfile_path = none := by
  obtain ⟨fs2, hrun, hmark, howned, -⟩ :=
    lock_then_owned lk fs0 t0 timeAt rand fuel hfuel hfree hne
  have hlock2 : fs2.lookup lk.lockfile_path = some lk.tmpfile_path := by
    rw [is_locked_eq] at howned
    have := congrArg (fun x : Except Errno Bool =>
      match x with | .ok b => b | .error _ => false) howned
    simpa using this
  have hul1 : fs2.unlink lk.lockfile_path = .ok (fs2.removePath lk.lockfile_path) := by
    unfold FS.unlink
    rw [hlock2]
  have hmark1 : (fs2.removePath lk.lockfile_path).lookup lk.tmpfile_path =
      some lk.tmpfile_path := by
    rw [FS.lookup_removePath_ne fs2 lk.lockfile_path lk.tmpfile_path
      (fun h => hne h.symm)]
    exact hmark
  have hul2 : (fs2.removePath lk.lockfile_path).unlink lk.tmpfile_path =
      .ok ((fs2.removePath lk.lockfile_path).removePath lk.tmpfile_path) := by
    unfold FS.unlink
    rw [hmark1]
  refine ⟨fs2, (fs2.removePath lk.lockfile_path).removePath lk.tmpfile_path,
    hrun, ?_, ?_, ?_⟩
  · simp only [SimpleLock.unlock, howned, unlinkHandler, hul1, hul2]
  · rw [FS.lookup_removePath_ne _ lk.tmpfile_path lk.lockfile_path hne]
    exact FS.lookup_removePath_self fs2 lk.lockfile_path
  · exact FS.lookup_removePath_self _ lk.tmpfile_path

/-- Closed-form instance of C8 on path `"L"`. -/
theorem lock_unlock_round_trip_witness :
    ∃ fs2 fs3,
      (SimpleLock.init "L" 1 false).lock ⟨[]⟩ (fun _ fs => fs) 0 (fun _ => 0)
          (fun _ => 0) 1 =
        some ⟨.ok fs2, [], 0⟩ ∧
      (SimpleLock.init "L" 1 false).unlock false fs2 =
        (.ok fs3, ["L", "L.1"]) ∧
      fs3.lookup "L" = none ∧
      fs3.lookup "L.1" = none :=
  lock_unlock_round_trip (SimpleLock.init "L" 1 false) ⟨[]⟩ 0 (fun _ => 0)
    (fun _ => 0) 1 (by decide) rfl (by decide)

/-- C9: scoped use acquires on entry and performs the non-forced release
on every exit path.  Whenever `lock()` succeeds, the `with` block makes
exactly the calls `[lockCall, unlockCall false]` for every body — whether
the body returns normally or raises — and when the body raises `e` and
the release succeeds, `e` keeps propagating out of the block. -/
theorem with_block_always_releases (lk : SimpleLock) (fs0 : FS)
    (interf : Nat → FS → FS) (t0 : Nat) (timeAt : Nat → Nat) (rand : Nat → ℚ)
    (fuel : Nat) (body : FS → FS × Option PyError) (r : LockRun) (fs1 : FS)
    (hrun : lk.lock fs0 interf t0 timeAt rand fuel = some r)
    (hok : r.result = .ok fs1) :
    ∃ out, withSimpleLock lk fs0 interf t0 timeAt rand fuel body = some out ∧
      out.2 = [.lockCall, .unlockCall false] ∧
      (∀ e fs3, (body fs1).2 = some e →
        (lk.unlock false (body fs1).1).1 = .ok fs3 → out.1 = .error e) := by
  simp only [withSimpleLock, SimpleLock.exitCall, hrun, hok]
  cases hu : (lk.unlock false (body fs1).1).1 with
  | error e2 =>
    refine ⟨(.error e2, [.lockCall, .unlockCall false]), rfl, rfl, ?_⟩
    intro e fs3 _ hok3
    simp at hok3
  | ok fs3 =>
    cases hb : (body fs1).2 with
    | some e =>
      refine ⟨(.error e, [.lockCall, .unlockCall false]), rfl, rfl, ?_⟩
      intro e' fs3' hb' _
      cases hb'
      rfl
    | none =>
      refine ⟨(.ok fs3, [.lockCall, .unlockCall false]), rfl, rfl, ?_⟩
      intro e' fs3' hb' _
      cases hb'

/-- Closed-form instance of C9: a body that raises still gets released,
and its exception propagates. -/
theorem with_block_always_releases_witness :
    ∃ out,
      withSimpleLock (SimpleLock.init "L" 1 false) ⟨[]⟩ (fun _ fs => fs) 0
          (fun _ => 0) (fun _ => 0) 1
          (fun fs => (fs, some (.lockError "boom"))) =
        some out ∧
      out.2 = [.lockCall, .unlockCall false] ∧
      (∀ e fs3,
        ((fun fs => (fs, some (PyError.lockError "boom")))
            (⟨[("L", "L.1"), ("L.1", "L.1")]⟩ : FS)).2 = some e →
        ((SimpleLock.init "L" 1 false).unlock false
            ((fun fs => (fs, some (PyError.lockError "boom")))
              (⟨[("L", "L.1"), ("L.1", "L.1")]⟩ : FS)).1).1 = .ok fs3 →
        out.1 = .error e) :=
  with_block_always_releases (SimpleLock.init "L" 1 false) ⟨[]⟩
    (fun _ fs => fs) 0 (fun _ => 0) (fun _ => 0) 1
    (fun fs => (fs, some (.lockError "boom")))
    ⟨.ok ⟨[("L", "L.1"), ("L.1", "L.1")]⟩, [], 0⟩
    ⟨[("L", "L.1"), ("L.1", "L.1")]⟩ rfl rfl

/-- Filesystem state observed by successive attempts of the polling loop:
`seenFrom lk interf i fs k` is the state attempt `i + k` sees when the
loop reached attempt `i` with threaded state `fs`.  Interference precedes
each attempt and a failed link leaves the filesystem unchanged, matching
the threading in `lockAux`. -/
def seenFrom (lk : SimpleLock) (interf : Nat → FS → FS) :
    Nat → FS → Nat → FS
  | i, fs, 0 => interf i fs
  | i, fs, k + 1 =>
    let fsi := interf i fs
    match fsi.link lk.tmpfile_path lk.lockfile_path with
    | .ok fs' => seenFrom lk interf (i + 1) fs' k
    | .error _ => seenFrom lk interf (i + 1) fsi k

theorem seenFrom_zero (lk : SimpleLock) (interf : Nat → FS → FS) (i : Nat)
    (fs : FS) : seenFrom lk interf i fs 0 = interf i fs := rfl

theorem seenFrom_succ_of_fail (lk : SimpleLock) (interf : Nat → FS → FS)
    (i : Nat) (fs : FS) (k : Nat) (e : Errno)
    (h : (interf i fs).link lk.tmpfile_path lk.lockfile_path = .error e) :
    seenFrom lk interf i fs (k + 1) =
      seenFrom lk interf (i + 1) (interf i fs) k := by
  simp only [seenFrom, h]

theorem lockAux_le_lastAttempt (lk : SimpleLock) (deadline : Nat)
    (interf : Nat → FS → FS) (timeAt : Nat → Nat) (rand : Nat → ℚ) :
    ∀ fuel i fs sl r,
      lockAux lk deadline interf timeAt rand fuel i fs sl = some r →
      i ≤ r.lastAttempt := by
  intro fuel
  induction fuel with
  | zero => intro i fs sl r h; cases h
  | succ f ih =>
    intro i fs sl r h
    simp only [lockAux] at h
    split at h
    · cases h
      exact le_refl _
    · split at h
      · split at h
        · cases h
          exact le_refl _
        · have := ih (i + 1) (interf i fs) _ r h
          omega
      · cases h
        exact le_refl _

theorem lockAux_timeout_iff (lk : SimpleLock) (deadline : Nat)
    (interf : Nat → FS → FS) (timeAt : Nat → Nat) (rand : Nat → ℚ) :
    ∀ fuel i fs sl r,
      lockAux lk deadline interf timeAt rand fuel i fs sl = some r →
      (r.result = .error (.lockError "Timeout") ↔
        (i ≤ r.lastAttempt ∧
          (∀ k, i + k ≤ r.lastAttempt →
            (seenFrom lk interf i fs k).link lk.tmpfile_path
              lk.lockfile_path = .error .eexist) ∧
          timeAt r.lastAttempt > deadline)) := by
  intro fuel
  induction fuel with
  | zero => intro i fs sl r h; cases h
  | succ f ih =>
    intro i fs sl r h
    simp only [lockAux] at h
    split at h
    · rename_i fs' hl
      cases h
      constructor
      · intro hres
        cases hres
      · rintro ⟨-, hall, -⟩
        have h0 := hall 0 (show i + 0 ≤ i by omega)
        rw [seenFrom_zero, hl] at h0
        cases h0
    · rename_i e hl
      split at h
      · rename_i he
        subst he
        split at h
        · rename_i ht
          cases h
          constructor
          · intro hres
            refine ⟨le_refl _, ?_, ht⟩
            intro k hk
            have hk0 : k = 0 := by
              have : i + k ≤ i := hk
              omega
            subst hk0
            rw [seenFrom_zero]
            exact hl
          · intro hrhs
            rfl
        · rename_i ht
          have hge := lockAux_le_lastAttempt lk deadline interf timeAt rand
            f (i + 1) (interf i fs) _ r h
          rw [ih (i + 1) (interf i fs) _ r h]
          constructor
          · rintro ⟨h1, hall, htime⟩
            refine ⟨by omega, ?_, htime⟩
            intro k hk
            cases k with
            | zero =>
              rw [seenFrom_zero]
              exact hl
            | succ k' =>
              rw [seenFrom_succ_of_fail lk interf i fs k' .eexist hl]
              exact hall k' (by omega)
          · rintro ⟨h1, hall, htime⟩
            refine ⟨by omega, ?_, htime⟩
            intro k hk
            rw [← seenFrom_succ_of_fail lk interf i fs k .eexist hl]
            exact hall (k + 1) (by omega)
      · rename_i he
        cases h
        constructor
        · intro hres
          cases hres
        · rintro ⟨-, hall, -⟩
          have h0 := hall 0 (show i + 0 ≤ i by omega)
          rw [seenFrom_zero, hl] at h0
          cases h0
          exact absurd rfl he

theorem lockAux_oserror (lk : SimpleLock) (deadline : Nat)
    (interf : Nat → FS → FS) (timeAt : Nat → Nat) (rand : Nat → ℚ) :
    ∀ fuel i fs sl r e,
      lockAux lk deadline interf timeAt rand fuel i fs sl = some r →
      r.result = .error (.osError e) →
      e ≠ .eexist ∧
      (seenFrom lk interf i fs (r.lastAttempt - i)).link lk.tmpfile_path
        lk.lockfile_path = .error e ∧
      ∀ k, i + k < r.lastAttempt →
        (seenFrom lk interf i fs k).link lk.tmpfile_path lk.lockfile_path =
          .error .eexist ∧
        timeAt (i + k) ≤ deadline := by
  intro fuel
  induction fuel with
  | zero => intro i fs sl r e h; cases h
  | succ f ih =>
    intro i fs sl r e h hres
    simp only [lockAux] at h
    split at h
    · rename_i fs' hl
      cases h
      cases hres
    · rename_i e' hl
      split at h
      · rename_i he
        subst he
        split at h
        · rename_i ht
          cases h
          cases hres
        · rename_i ht
          have hge := lockAux_le_lastAttempt lk deadline interf timeAt rand
            f (i + 1) (interf i fs) _ r h
          obtain ⟨hne, hlast, hall⟩ := ih (i + 1) (interf i fs) _ r e h hres
          refine ⟨hne, ?_, ?_⟩
          · have hk : r.lastAttempt - i = (r.lastAttempt - (i + 1)) + 1 := by
              omega
            rw [hk, seenFrom_succ_of_fail lk interf i fs _ .eexist hl]
            exact hlast
          · intro k hk
            cases k with
            | zero =>
              rw [seenFrom_zero]
              refine ⟨hl, ?_⟩
              rw [Nat.add_zero]
              exact Nat.le_of_not_lt ht
            | succ k' =>
              rw [seenFrom_succ_of_fail lk interf i fs k' .eexist hl]
              have h2 := hall k' (by omega)
              refine ⟨h2.1, ?_⟩
              have h3 : timeAt (i + 1 + k') ≤ deadline := h2.2
              have heq : i + (k' + 1) = i + 1 + k' := by omega
              rw [heq]
              exact h3
      · rename_i he
        cases h
        cases hres
        refine ⟨he, ?_, ?_⟩
        · show (seenFrom lk interf i fs (i - i)).link lk.tmpfile_path
            lk.lockfile_path = _
          rw [Nat.sub_self i, seenFrom_zero]
          exact hl
        · intro k hk
          have hk' : i + k < i := hk
          omega

/-- C4: a terminating `lock()` raises `LockError('Timeout')` iff every
hard-link attempt it made failed with `EEXIST` and the clock sample at the
final attempt exceeded the deadline `t0 + timeout` (so `Timeout` is never
raised at or before the deadline); and when it propagates an `OSError e`,
`e` is not `EEXIST`, the error came from the very attempt the call ended
on, and every earlier attempt had failed with `EEXIST` within the
deadline — no retry follows a non-`EEXIST` error. -/
theorem lock_timeout_characterization (lk : SimpleLock) (fs0 : FS)
    (interf : Nat → FS → FS) (t0 : Nat) (timeAt : Nat → Nat) (rand : Nat → ℚ)
    (fuel : Nat) (r : LockRun)
    (hrun : lk.lock fs0 interf t0 timeAt rand fuel = some r) :
    (r.result = .error (.lockError "Timeout") ↔
      ((∀ k ≤ r.lastAttempt,
          (seenFrom lk interf 0 (fs0.write lk.tmpfile_path lk.tmpfile_path)
              k).link lk.tmpfile_path lk.lockfile_path = .error .eexist) ∧
        timeAt r.lastAttempt > t0 + lk.timeout)) ∧
    (∀ e, r.result = .error (.osError e) →
      e ≠ .eexist ∧
      (seenFrom lk interf 0 (fs0.write lk.tmpfile_path lk.tmpfile_path)
          r.lastAttempt).link lk.tmpfile_path lk.lockfile_path = .error e ∧
      ∀ k < r.lastAttempt,
        (seenFrom lk interf 0 (fs0.write lk.tmpfile_path lk.tmpfile_path)
            k).link lk.tmpfile_path lk.lockfile_path = .error .eexist ∧
        timeAt k ≤ t0 + lk.timeout) := by
  unfold SimpleLock.lock at hrun
  constructor
  · rw [lockAux_timeout_iff lk (t0 + lk.timeout) interf timeAt rand fuel 0
      (fs0.write lk.tmpfile_path lk.tmpfile_path) [] r hrun]
    constructor
    · rintro ⟨-, hall, htime⟩
      exact ⟨fun k hk => hall k (by omega), htime⟩
    · rintro ⟨hall, htime⟩
      exact ⟨Nat.zero_le _, fun k hk => hall k (by omega), htime⟩
  · intro e hres
    obtain ⟨hne, hlast, hall⟩ := lockAux_oserror lk (t0 + lk.timeout) interf
      timeAt rand fuel 0 (fs0.write lk.tmpfile_path lk.tmpfile_path) [] r e
      hrun hres
    rw [Nat.sub_zero] at hlast
    refine ⟨hne, hlast, ?_⟩
    intro k hk
    have := hall k (by omega)
    rw [Nat.zero_add] at this
    exact this

/-- Closed-form instance of C4: a two-attempt run against a permanently
held lock, with the clock past the deadline at the second attempt, is
`Timeout`. -/
theorem lock_timeout_characterization_witness :
    (⟨.error (.lockError "Timeout"), [0 + 1/100], 1⟩ : LockRun).result =
      .error (.lockError "Timeout") :=
  (lock_timeout_characterization (SimpleLock.init "L" 1 true)
      ⟨[("L", "L.2")]⟩ (fun _ fs => fs) 0
      (fun i => if i = 0 then 0 else 100) (fun _ => 0) 2
      ⟨.error (.lockError "Timeout"), [0 + 1/100], 1⟩ rfl).1.mpr
    ⟨by
      intro k hk
      match k, hk with
      | 0, _ => rfl
      | 1, _ => rfl,
      by decide⟩

/-- Per-process control point within the lock protocol. -/
inductive Phase where
  | start
  | trying
  | holding
  | releasing
  | done
deriving DecidableEq, Repr

/-- Global state of a set of contending processes: the shared filesystem
plus each process's phase. -/
structure SysState (ι : Type) where
  fs : FS
  phase : ι → Phase

/-- One atomic filesystem action by one process, following the code paths
of `lock()` and `unlock()`: write the marker file; attempt the hard link
(success, contention `EEXIST` retry, timeout after a contended attempt, or
fatal error); remove `lock_path`; remove the marker.  `cfg i` is process
`i`'s `SimpleLock` instance.  The `is_locked` precheck of `unlock` is not
a step guard, which only enlarges the behaviour set the safety proof
covers. -/
inductive SysStep {ι : Type} [DecidableEq ι] (cfg : ι → SimpleLock) :
    SysState ι → SysState ι → Prop where
  | writeMarker (s : SysState ι) (i : ι) :
      s.phase i = .start →
      SysStep cfg s
        ⟨s.fs.write (cfg i).tmpfile_path (cfg i).tmpfile_path,
          Function.update s.phase i .trying⟩
  | linkOk (s : SysState ι) (i : ι) (fs' : FS) :
      s.phase i = .trying →
      s.fs.link (cfg i).tmpfile_path (cfg i).lockfile_path = .ok fs' →
      SysStep cfg s ⟨fs', Function.update s.phase i .holding⟩
  | linkBusy (s : SysState ι) (i : ι) :
      s.phase i = .trying →
      s.fs.link (cfg i).tmpfile_path (cfg i).lockfile_path = .error .eexist →
      SysStep cfg s s
  | timeoutStep (s : SysState ι) (i : ι) :
      s.phase i = .trying →
      s.fs.link (cfg i).tmpfile_path (cfg i).lockfile_path = .error .eexist →
      SysStep cfg s ⟨s.fs, Function.update s.phase i .done⟩
  | linkFatal (s : SysState ι) (i : ι) (e : Errno) :
      s.phase i = .trying →
      s.fs.link (cfg i).tmpfile_path (cfg i).lockfile_path = .error e →
      e ≠ .eexist →
      SysStep cfg s ⟨s.fs, Function.update s.phase i .done⟩
  | unlinkLock (s : SysState ι) (i : ι) (fs' : FS) :
      s.phase i = .holding →
      s.fs.unlink (cfg i).lockfile_path = .ok fs' →
      SysStep cfg s ⟨fs', Function.update s.phase i .releasing⟩
  | unlinkMarker (s : SysState ι) (i : ι) (fs' : FS) :
      s.phase i = .releasing →
      s.fs.unlink (cfg i).tmpfile_path = .ok fs' →
      SysStep cfg s ⟨fs', Function.update s.phase i .done⟩

/-- Protocol invariant: every process between its marker write and the
marker's removal sees its marker file intact with its own path as content,
and a holder's marker string is exactly what `lock_path` resolves to. -/
def Inv {ι : Type} (cfg : ι → SimpleLock) (s : SysState ι) : Prop :=
  (∀ i, (s.phase i = .trying ∨ s.phase i = .holding ∨
      s.phase i = .releasing) →
    s.fs.lookup (cfg i).tmpfile_path = some (cfg i).tmpfile_path) ∧
  (∀ i, s.phase i = .holding →
    s.fs.lookup (cfg i).lockfile_path = some (cfg i).tmpfile_path)

theorem Inv_step {ι : Type} [DecidableEq ι] (cfg : ι → SimpleLock)
    (hml : ∀ i j, (cfg i).tmpfile_path ≠ (cfg j).lockfile_path)
    (hinj : ∀ i j, (cfg i).tmpfile_path = (cfg j).tmpfile_path → i = j)
    (s s' : SysState ι) (hstep : SysStep cfg s s') (hinv : Inv cfg s) :
    Inv cfg s' := by
  obtain ⟨h1, h2⟩ := hinv
  cases hstep with
  | writeMarker i hph =>
    constructor
    · intro j hj
      dsimp only at hj ⊢
      by_cases hij : j = i
      · subst hij
        exact FS.lookup_write_self _ _ _
      · rw [FS.lookup_write_ne _ _ _ _ (fun hEq => hij (hinj j i hEq))]
        apply h1 j
        rwa [Function.update_noteq hij _ _] at hj
    · intro j hj
      dsimp only at hj ⊢
      by_cases hij : j = i
      · subst hij
        rw [Function.update_same] at hj
        cases hj
      · rw [Function.update_noteq hij _ _] at hj
        rw [FS.lookup_write_ne _ _ _ _ (fun hq => hml i j hq.symm)]
        exact h2 j hj
  | linkOk i fs' hph hlink =>
    obtain ⟨hdst, c, hsrc, rfl⟩ := link_ok_inv s.fs fs' _ _ hlink
    have hmark := h1 i (Or.inl hph)
    rw [hmark] at hsrc
    injection hsrc with hc
    subst hc
    constructor
    · intro j hj
      dsimp only at hj ⊢
      by_cases hij : j = i
      · subst hij
        rw [FS.lookup_write_ne _ _ _ _ (hml j j)]
        exact hmark
      · rw [FS.lookup_write_ne _ _ _ _ (hml j i)]
        apply h1 j
        rwa [Function.update_noteq hij _ _] at hj
    · intro j hj
      dsimp only at hj ⊢
      by_cases hij : j = i
      · subst hij
        exact FS.lookup_write_self _ _ _
      · rw [Function.update_noteq hij _ _] at hj
        by_cases hll : (cfg j).lockfile_path = (cfg i).lockfile_path
        · have hcontra := h2 j hj
          rw [hll, hdst] at hcontra
          cases hcontra
        · rw [FS.lookup_write_ne _ _ _ _ hll]
          exact h2 j hj
  | linkBusy i hph hlink => exact ⟨h1, h2⟩
  | timeoutStep i hph hlink =>
    constructor
    · intro j hj
      dsimp only at hj ⊢
      by_cases hij : j = i
      · subst hij
        rw [Function.update_same] at hj
        rcases hj with h | h | h <;> cases h
      · apply h1 j
        rwa [Function.update_noteq hij _ _] at hj
    · intro j hj
      dsimp only at hj ⊢
      by_cases hij : j = i
      · subst hij
        rw [Function.update_same] at hj
        cases hj
      · rw [Function.update_noteq hij _ _] at hj
        exact h2 j hj
  | linkFatal i e hph hlink hne =>
    constructor
    · intro j hj
      dsimp only at hj ⊢
      by_cases hij : j = i
      · subst hij
        rw [Function.update_same] at hj
        rcases hj with h | h | h <;> cases h
      · apply h1 j
        rwa [Function.update_noteq hij _ _] at hj
    · intro j hj
      dsimp only at hj ⊢
      by_cases hij : j = i
      · subst hij
        rw [Function.update_same] at hj
        cases hj
      · rw [Function.update_noteq hij _ _] at hj
        exact h2 j hj
  | unlinkLock i fs' hph hul =>
    have hfs' := FS.unlink_lookup s.fs fs' _ hul
    subst hfs'
    constructor
    · intro j hj
      dsimp only at hj ⊢
      rw [FS.lookup_removePath_ne _ _ _ (hml j i)]
      by_cases hij : j = i
      · subst hij
        exact h1 j (Or.inr (Or.inl hph))
      · apply h1 j
        rwa [Function.update_noteq hij _ _] at hj
    · intro j hj
      dsimp only at hj ⊢
      by_cases hij : j = i
      · subst hij
        rw [Function.update_same] at hj
        cases hj
      · rw [Function.update_noteq hij _ _] at hj
        by_cases hll : (cfg j).lockfile_path = (cfg i).lockfile_path
        · exfalso
          have ei := h2 i hph
          have ej := h2 j hj
          rw [hll, ei] at ej
          injection ej with ejc
          exact hij (hinj j i ejc.symm)
        · rw [FS.lookup_removePath_ne _ _ _ hll]
          exact h2 j hj
  | unlinkMarker i fs' hph hul =>
    have hfs' := FS.unlink_lookup s.fs fs' _ hul
    subst hfs'
    constructor
    · intro j hj
      dsimp only at hj ⊢
      by_cases hij : j = i
      · subst hij
        rw [Function.update_same] at hj
        rcases hj with h | h | h <;> cases h
      · rw [FS.lookup_removePath_ne _ _ _
          (fun hEq => hij (hinj j i hEq))]
        apply h1 j
        rwa [Function.update_noteq hij _ _] at hj
    · intro j hj
      dsimp only at hj ⊢
      by_cases hij : j = i
      · subst hij
        rw [Function.update_same] at hj
        cases hj
      · rw [Function.update_noteq hij _ _] at hj
        rw [FS.lookup_removePath_ne _ _ _ (fun hq => hml i j hq.symm)]
        exact h2 j hj

theorem Inv_reachable {ι : Type} [DecidableEq ι] (cfg : ι → SimpleLock)
    (hml : ∀ i j, (cfg i).tmpfile_path ≠ (cfg j).lockfile_path)
    (hinj : ∀ i j, (cfg i).tmpfile_path = (cfg j).tmpfile_path → i = j)
    (init s : SysState ι) (hinit : ∀ i, init.phase i = .start)
    (hreach : Relation.ReflTransGen (SysStep cfg) init s) :
    Inv cfg s := by
  induction hreach with
  | refl =>
    constructor
    · intro i hi
      rw [hinit i] at hi
      rcases hi with h | h | h <;> cases h
    · intro i hi
      rw [hinit i] at hi
      cases hi
  | tail hsteps hstep ih => exact Inv_step cfg hml hinj _ _ hstep ih

/-- C1: mutual exclusion of the hard-link protocol.  In any state
reachable from all-processes-not-yet-started, with all instances
targeting the same `lock_path` and pairwise distinct marker paths
(distinct from `lock_path`): at most one process holds an acquisition at
any instant, and while some process holds it, every other process's
`os.link` attempt fails with `EEXIST` — so a concurrent `acquire()` can
only keep polling (wait) or end in `LockError('Timeout')`. -/
theorem mutual_exclusion {ι : Type} [DecidableEq ι] (cfg : ι → SimpleLock)
    (hml : ∀ i j, (cfg i).tmpfile_path ≠ (cfg j).lockfile_path)
    (hinj : ∀ i j, (cfg i).tmpfile_path = (cfg j).tmpfile_path → i = j)
    (hsame : ∀ i j, (cfg i).lockfile_path = (cfg j).lockfile_path)
    (init s : SysState ι) (hinit : ∀ i, init.phase i = .start)
    (hreach : Relation.ReflTransGen (SysStep cfg) init s) :
    (∀ i j, s.phase i = .holding → s.phase j = .holding → i = j) ∧
    (∀ i j, s.phase i = .holding →
      s.fs.link (cfg j).tmpfile_path (cfg j).lockfile_path =
        .error .eexist) := by
  obtain ⟨h1, h2⟩ := Inv_reachable cfg hml hinj init s hinit hreach
  constructor
  · intro i j hi hj
    have ei := h2 i hi
    have ej := h2 j hj
    rw [hsame i j] at ei
    rw [ei] at ej
    injection ej with ec
    exact hinj i j ec
  · intro i j hi
    have ei := h2 i hi
    rw [hsame i j] at ei
    unfold FS.link
    rw [ei]

/-- Closed-form instance of C1 with two processes on `lock_path` `"L"`
(markers `"L.1"` and `"L.2"`), at the initial state. -/
theorem mutual_exclusion_witness :
    (∀ i j : Fin 2,
      (⟨⟨[]⟩, fun _ => Phase.start⟩ : SysState (Fin 2)).phase i = .holding →
      (⟨⟨[]⟩, fun _ => Phase.start⟩ : SysState (Fin 2)).phase j = .holding →
      i = j) ∧
    (∀ i j : Fin 2,
      (⟨⟨[]⟩, fun _ => Phase.start⟩ : SysState (Fin 2)).phase i = .holding →
      (⟨⟨[]⟩, fun _ => Phase.start⟩ : SysState (Fin 2)).fs.link
          ((fun k : Fin 2 => SimpleLock.init "L" (k.val + 1) false)
            j).tmpfile_path
          ((fun k : Fin 2 => SimpleLock.init "L" (k.val + 1) false)
            j).lockfile_path =
        .error .eexist) :=
  mutual_exclusion (fun k : Fin 2 => SimpleLock.init "L" (k.val + 1) false)
    (by decide) (by decide) (by decide)
    ⟨⟨[]⟩, fun _ => Phase.start⟩ ⟨⟨[]⟩, fun _ => Phase.start⟩
    (fun _ => rfl) Relation.ReflTransGen.refl

end SimpleLockSpec
